import Mathlib

/-!
Verification development for the fosh shell front-end.

Definitions are shallow embeddings of the Rust sources:
  * `src/src/parser/tokenizer.rs` — the mode-switching tokenizer;
  * `src/src/parser/ast.rs` — node kinds and the `Typed` inference impls;
  * `src/src/builtin/engine/entities.rs` — entities, callees, executions;
  * `src/src/builtin/entities.rs` — the built-in `cd` entity;
  * `src/src/runtime/execution.rs` — the evaluator;
  * `src/src/main.rs` — the REPL step.
The lalrpop grammar file is not part of the sources; tree shapes that
depend on it are modelled from the specification and are marked
`Modelled from the spec:` at their definitions.
-/

namespace Fosh

/-- Node kinds, from `enum ASTKind` in `src/src/parser/ast.rs`. -/
inductive ASTKind where
  | Piped
  | Sequenced
  | Delimited
  | Ampersand
  | Pipe
  | SemiColon
  | Dollar
  | DoubleQuote
  | Literal
  | OpenParen
  | CloseParen
  | OpenBrace
  | CloseBrace
  | StringLiteral
  | NumberLiteral
  | Dot
  | Comma
  | Identifier
  | Equals
  | VariableName
  | Function
  | ParenthesizedArgumentsList
  | PropertyInsn
  | PropertyCall
  | PropertyName
  | Assignation
  | BracedCommand
  | Parameter
  | Command
  | CommandName
  | CommandArguments
  | Error
  deriving DecidableEq

/-! ## Tokenizer (src/src/parser/tokenizer.rs)

Three sub-lexers (`TopLevelToken`, `FunctionLevelToken`, `StringLevelToken`)
with maximal-munch regexes and whitespace skipping, driven by a pushdown
state stack (`Tokenizer`).  We model a lexing step as producing a segment:
either an emitted token with its text, or a run of skipped whitespace. -/

/-- One lexer output segment: an emitted token, or skipped whitespace. -/
inductive Seg where
  | tok (k : ASTKind) (text : List Char)
  | ws (text : List Char)
  deriving DecidableEq

/-- Whitespace class `[ \n\t]` shared by the Top and Function sub-lexers. -/
def isWsChar (c : Char) : Bool :=
  c = ' ' || c = '\n' || c = '\t'

/-- The single-character tokens of the Top sub-lexer, which are exactly the
characters excluded from its `Literal` class besides whitespace. -/
def isTopSpecial (c : Char) : Bool :=
  c = '&' || c = '|' || c = ';' || c = '$' || c = '"' || c = '}'

/-- Character class of the Top `Literal` regex: one or more of any
character not in the whitespace or special sets. -/
def isTopLiteralChar (c : Char) : Bool :=
  !(isWsChar c) && !(isTopSpecial c)

/-- Decimal digit class. -/
def isDigitChar (c : Char) : Bool :=
  '0' ≤ c && c ≤ '9'

/-- ASCII letter class, the first character of an `Identifier`. -/
def isLetterChar (c : Char) : Bool :=
  ('a' ≤ c && c ≤ 'z') || ('A' ≤ c && c ≤ 'Z')

/-- Word characters continuing an `Identifier`. -/
def isWordChar (c : Char) : Bool :=
  isLetterChar c || isDigitChar c || c = '_'

/-- One step of the Top sub-lexer (`TopLevelToken`). -/
def lexTop : List Char → Option (Seg × List Char)
  | [] => none
  | c :: rest =>
    if c = '&' then some (.tok .Ampersand [c], rest)
    else if c = '|' then some (.tok .Pipe [c], rest)
    else if c = ';' then some (.tok .SemiColon [c], rest)
    else if c = '$' then some (.tok .Dollar [c], rest)
    else if c = '}' then some (.tok .CloseBrace [c], rest)
    else if c = '"' then some (.tok .DoubleQuote [c], rest)
    else if isWsChar c then
      some (.ws ((c :: rest).takeWhile isWsChar), (c :: rest).dropWhile isWsChar)
    else
      some (.tok .Literal ((c :: rest).takeWhile isTopLiteralChar),
            (c :: rest).dropWhile isTopLiteralChar)

/-- One step of the String sub-lexer (`StringLevelToken`). -/
def lexStr : List Char → Option (Seg × List Char)
  | [] => none
  | c :: rest =>
    if c = '"' then some (.tok .DoubleQuote [c], rest)
    else
      some (.tok .Literal ((c :: rest).takeWhile (fun d => d ≠ '"')),
            (c :: rest).dropWhile (fun d => d ≠ '"'))

/-- Maximal munch of the `Number` regex of the Function sub-lexer,
starting at a digit: integer digits, then an optional fraction
`"." [0-9]+`. -/
def lexNumberFrom (l : List Char) : List Char × List Char :=
  let intPart := l.takeWhile isDigitChar
  let rest := l.dropWhile isDigitChar
  match rest with
  | '.' :: d :: _ =>
    if isDigitChar d then
      (intPart ++ '.' :: (rest.drop 1).takeWhile isDigitChar,
       (rest.drop 1).dropWhile isDigitChar)
    else (intPart, rest)
  | _ => (intPart, rest)

/-- The single-character token rules of the Function sub-lexer. -/
def fnSingleTok (c : Char) : Option ASTKind :=
  if c = '(' then some .OpenParen
  else if c = ')' then some .CloseParen
  else if c = '{' then some .OpenBrace
  else if c = '}' then some .CloseBrace
  else if c = ',' then some .Comma
  else if c = '"' then some .DoubleQuote
  else if c = '&' then some .Ampersand
  else if c = '|' then some .Pipe
  else if c = ';' then some .SemiColon
  else none

/-- Maximal munch of the `Number` regex when the input starts with `"."`:
a fraction-only number if a digit follows, otherwise the `Dot` token. -/
def lexFnDot (rest : List Char) : Seg × List Char :=
  match rest with
  | d :: _ =>
    if isDigitChar d then
      (.tok .NumberLiteral ('.' :: rest.takeWhile isDigitChar),
       rest.dropWhile isDigitChar)
    else (.tok .Dot ['.'], rest)
  | [] => (.tok .Dot ['.'], rest)

/-- One step of the Function sub-lexer (`FunctionLevelToken`).  An
unmatched character becomes an `Error` token, as with `logos`'s error
variant. -/
def lexFn : List Char → Option (Seg × List Char)
  | [] => none
  | c :: rest =>
    if isWsChar c then
      some (.ws ((c :: rest).takeWhile isWsChar), (c :: rest).dropWhile isWsChar)
    else
      match fnSingleTok c with
      | some k => some (.tok k [c], rest)
      | none =>
        if c = '.' then some (lexFnDot rest)
        else if isDigitChar c then
          some (.tok .NumberLiteral (lexNumberFrom (c :: rest)).1,
                (lexNumberFrom (c :: rest)).2)
        else if isLetterChar c then
          some (.tok .Identifier (c :: rest.takeWhile isWordChar),
                rest.dropWhile isWordChar)
        else some (.tok .Error [c], rest)

/-- The three sub-lexer modes (`TokenizerState` kinds). -/
inductive Mode where
  | top
  | fn
  | str
  deriving DecidableEq

/-- The pushdown lexer state: current mode and the stack of saved modes. -/
structure LexState where
  mode : Mode
  stack : List Mode
  deriving DecidableEq

/-- `Tokenizer::pop_state`: restore the top of the stack, or Top when the
stack is empty. -/
def popMode (ls : LexState) : LexState :=
  match ls.stack with
  | [] => ⟨.top, []⟩
  | m :: s => ⟨m, s⟩

/-- `Tokenizer::push_state`: save the current mode and enter `new`. -/
def pushMode (ls : LexState) (new : Mode) : LexState :=
  ⟨new, ls.mode :: ls.stack⟩

/-- The state transitions performed by `Tokenizer::next` after a token is
produced, in the order of the Rust `if` chain. -/
def applyTransition (k : ASTKind) (ls : LexState) : LexState :=
  let ls1 := if k = ASTKind.Dollar then { ls with mode := Mode.fn } else ls
  let ls2 :=
    if (k = ASTKind.SemiColon ∨ k = ASTKind.Pipe ∨ k = ASTKind.Ampersand) ∧
        ls1.mode = Mode.fn then
      { ls1 with mode := Mode.top }
    else ls1
  let ls3 :=
    if k = ASTKind.DoubleQuote then
      if ls2.mode = Mode.str then popMode ls2 else pushMode ls2 Mode.str
    else ls2
  let ls4 := if k = ASTKind.CloseBrace then popMode ls3 else ls3
  if k = ASTKind.OpenBrace then pushMode ls4 Mode.top else ls4

/-- Dispatch one lexing step to the sub-lexer of the current mode. -/
def subLex (m : Mode) : List Char → Option (Seg × List Char) :=
  match m with
  | .top => lexTop
  | .fn => lexFn
  | .str => lexStr

/-- Run the tokenizer to completion (fuel-indexed; each produced segment
consumes at least one character, so `input.length` fuel suffices). -/
def lexAll : Nat → LexState → List Char → List Seg
  | 0, _, _ => []
  | fuel + 1, ls, input =>
    match subLex ls.mode input with
    | none => []
    | some (seg, rest) =>
      match seg with
      | .tok k t => Seg.tok k t :: lexAll fuel (applyTransition k ls) rest
      | .ws t => Seg.ws t :: lexAll fuel ls rest

/-- The raw text of a segment. -/
def segText : Seg → List Char
  | .tok _ t => t
  | .ws t => t

/-- Concatenation of the texts of a list of segments. -/
def segConcat (l : List Seg) : List Char :=
  (l.map segText).flatten

/-- Tokenize a whole line, starting in Top mode with an empty stack. -/
def tokenizeSegs (s : List Char) : List Seg :=
  lexAll s.length ⟨.top, []⟩ s

/-- Whether a segment is an emitted token (as opposed to skipped
whitespace). -/
def isTokSeg : Seg → Bool
  | .tok _ _ => true
  | .ws _ => false

/-- The texts of the emitted tokens of a line, in order. -/
def tokenTexts (s : List Char) : List (List Char) :=
  ((tokenizeSegs s).filter isTokSeg).map segText

theorem takeWhile_cons_pos {p : Char → Bool} {c : Char} {l : List Char}
    (h : p c = true) : (c :: l).takeWhile p = c :: l.takeWhile p := by
  simp [List.takeWhile_cons, h]

theorem lexTop_spec {input rest : List Char} {seg : Seg}
    (h : lexTop input = some (seg, rest)) :
    segText seg ++ rest = input ∧ segText seg ≠ [] := by
  match input with
  | [] => simp [lexTop] at h
  | c :: l =>
    simp only [lexTop] at h
    split_ifs at h with h1 h2 h3 h4 h5 h6 h7
    case pos =>
      obtain ⟨rfl, rfl⟩ := Prod.mk.injEq .. ▸ Option.some.injEq .. ▸ h
      subst h1; exact ⟨rfl, by simp [segText]⟩
    case pos =>
      obtain ⟨rfl, rfl⟩ := Prod.mk.injEq .. ▸ Option.some.injEq .. ▸ h
      subst h2; exact ⟨rfl, by simp [segText]⟩
    case pos =>
      obtain ⟨rfl, rfl⟩ := Prod.mk.injEq .. ▸ Option.some.injEq .. ▸ h
      subst h3; exact ⟨rfl, by simp [segText]⟩
    case pos =>
      obtain ⟨rfl, rfl⟩ := Prod.mk.injEq .. ▸ Option.some.injEq .. ▸ h
      subst h4; exact ⟨rfl, by simp [segText]⟩
    case pos =>
      obtain ⟨rfl, rfl⟩ := Prod.mk.injEq .. ▸ Option.some.injEq .. ▸ h
      subst h5; exact ⟨rfl, by simp [segText]⟩
    case pos =>
      obtain ⟨rfl, rfl⟩ := Prod.mk.injEq .. ▸ Option.some.injEq .. ▸ h
      subst h6; exact ⟨rfl, by simp [segText]⟩
    case pos =>
      obtain ⟨rfl, rfl⟩ := Prod.mk.injEq .. ▸ Option.some.injEq .. ▸ h
      refine ⟨by simp [segText, List.takeWhile_append_dropWhile], ?_⟩
      simp [segText, takeWhile_cons_pos h7]
    case neg =>
      obtain ⟨rfl, rfl⟩ := Prod.mk.injEq .. ▸ Option.some.injEq .. ▸ h
      have hc : isTopLiteralChar c = true := by
        simp [isTopLiteralChar, isTopSpecial, isWsChar] at h7 ⊢
        simp_all
      refine ⟨by simp [segText, List.takeWhile_append_dropWhile], ?_⟩
      simp [segText, takeWhile_cons_pos hc]

theorem lexStr_spec {input rest : List Char} {seg : Seg}
    (h : lexStr input = some (seg, rest)) :
    segText seg ++ rest = input ∧ segText seg ≠ [] := by
  match input with
  | [] => simp [lexStr] at h
  | c :: l =>
    simp only [lexStr] at h
    split_ifs at h with h1
    · obtain ⟨rfl, rfl⟩ := Prod.mk.injEq .. ▸ Option.some.injEq .. ▸ h
      subst h1; exact ⟨rfl, by simp [segText]⟩
    · obtain ⟨rfl, rfl⟩ := Prod.mk.injEq .. ▸ Option.some.injEq .. ▸ h
      have hc : (fun d => decide (d ≠ '"')) c = true := by simp [h1]
      refine ⟨by simp [segText, List.takeWhile_append_dropWhile], ?_⟩
      simp [segText, List.takeWhile_cons, h1]

theorem lexNumberFrom_concat (l : List Char) :
    (lexNumberFrom l).1 ++ (lexNumberFrom l).2 = l := by
  unfold lexNumberFrom
  cases hd : l.dropWhile isDigitChar with
  | nil =>
    simpa [hd] using List.takeWhile_append_dropWhile (p := isDigitChar) (l := l)
  | cons d t =>
    by_cases hdot : d = '.'
    · subst hdot
      cases t with
      | nil =>
        simpa [hd] using List.takeWhile_append_dropWhile (p := isDigitChar) (l := l)
      | cons e u =>
        by_cases he : isDigitChar e = true
        · have : l.takeWhile isDigitChar ++
              ('.' :: ((e :: u).takeWhile isDigitChar ++ (e :: u).dropWhile isDigitChar)) = l := by
            rw [List.takeWhile_append_dropWhile]
            rw [← hd, List.takeWhile_append_dropWhile]
          simpa [hd, he] using this
        · have he2 : isDigitChar e = false := by simpa using he
          simp only [hd, he2]
          simpa [hd, he2] using List.takeWhile_append_dropWhile (p := isDigitChar) (l := l)
    · have : l.takeWhile isDigitChar ++ (d :: t) = l := by
        rw [← hd, List.takeWhile_append_dropWhile]
      cases t with
      | nil => simpa [hd, hdot] using this
      | cons e u => simpa [hd, hdot] using this

theorem lexNumberFrom_ne_nil {c : Char} {l : List Char}
    (h : isDigitChar c = true) : (lexNumberFrom (c :: l)).1 ≠ [] := by
  unfold lexNumberFrom
  cases hd : (c :: l).dropWhile isDigitChar with
  | nil => simp [takeWhile_cons_pos h]
  | cons d t =>
    by_cases hdot : d = '.'
    · subst hdot
      cases t with
      | nil => simp [takeWhile_cons_pos h]
      | cons e u =>
        by_cases he : isDigitChar e = true
        · simp [takeWhile_cons_pos h, he]
        · have he2 : isDigitChar e = false := by simpa using he
          simp [takeWhile_cons_pos h, he2]
    · cases t with
      | nil => simp [takeWhile_cons_pos h, hdot]
      | cons e u => simp [takeWhile_cons_pos h, hdot]

theorem lexFnDot_spec (rest : List Char) :
    segText (lexFnDot rest).1 ++ (lexFnDot rest).2 = '.' :: rest ∧
      segText (lexFnDot rest).1 ≠ [] := by
  unfold lexFnDot
  cases rest with
  | nil => simp [segText]
  | cons d t =>
    by_cases hd : isDigitChar d = true
    · simp only [hd, if_true]
      refine ⟨?_, by simp [segText]⟩
      simp [segText, List.takeWhile_append_dropWhile]
    · have hd2 : isDigitChar d = false := by simpa using hd
      simp [hd2, segText]

theorem lexFn_spec {input rest : List Char} {seg : Seg}
    (h : lexFn input = some (seg, rest)) :
    segText seg ++ rest = input ∧ segText seg ≠ [] := by
  match input with
  | [] => simp [lexFn] at h
  | c :: l =>
    simp only [lexFn] at h
    by_cases h1 : isWsChar c = true
    · rw [if_pos h1] at h
      obtain ⟨rfl, rfl⟩ := Prod.mk.injEq .. ▸ Option.some.injEq .. ▸ h
      refine ⟨by simp [segText, List.takeWhile_append_dropWhile], ?_⟩
      simp [segText, takeWhile_cons_pos h1]
    · rw [if_neg h1] at h
      cases hs : fnSingleTok c with
      | some k =>
        rw [hs] at h
        obtain ⟨rfl, rfl⟩ := Prod.mk.injEq .. ▸ Option.some.injEq .. ▸ h
        exact ⟨rfl, by simp [segText]⟩
      | none =>
        rw [hs] at h
        dsimp only at h
        split_ifs at h with h2 h3 h4
        · subst h2
          obtain ⟨rfl, rfl⟩ := Prod.mk.injEq .. ▸ Option.some.injEq .. ▸ h
          exact lexFnDot_spec l
        · obtain ⟨rfl, rfl⟩ := Prod.mk.injEq .. ▸ Option.some.injEq .. ▸ h
          exact ⟨by simpa [segText] using lexNumberFrom_concat (c :: l),
                 by simpa [segText] using lexNumberFrom_ne_nil h3⟩
        · obtain ⟨rfl, rfl⟩ := Prod.mk.injEq .. ▸ Option.some.injEq .. ▸ h
          refine ⟨?_, by simp [segText]⟩
          simp [segText, List.takeWhile_append_dropWhile]
        · obtain ⟨rfl, rfl⟩ := Prod.mk.injEq .. ▸ Option.some.injEq .. ▸ h
          exact ⟨rfl, by simp [segText]⟩

theorem subLex_spec {m : Mode} {input rest : List Char} {seg : Seg}
    (h : subLex m input = some (seg, rest)) :
    segText seg ++ rest = input ∧ segText seg ≠ [] := by
  cases m with
  | top => exact lexTop_spec h
  | fn => exact lexFn_spec h
  | str => exact lexStr_spec h

theorem subLex_nil (m : Mode) : subLex m [] = none := by
  cases m <;> rfl

theorem subLex_cons_isSome (m : Mode) (c : Char) (l : List Char) :
    (subLex m (c :: l)).isSome := by
  cases m with
  | top =>
    simp only [subLex, lexTop]
    split_ifs <;> simp
  | fn =>
    simp only [subLex, lexFn]
    split_ifs <;> first
      | simp
      | (cases fnSingleTok c <;> simp)
  | str =>
    simp only [subLex, lexStr]
    split_ifs <;> simp

theorem segConcat_cons (seg : Seg) (l : List Seg) :
    segConcat (seg :: l) = segText seg ++ segConcat l := by
  simp [segConcat]

theorem lexAll_concat :
    ∀ (fuel : Nat) (ls : LexState) (input : List Char),
      input.length ≤ fuel → segConcat (lexAll fuel ls input) = input := by
  intro fuel
  induction fuel with
  | zero =>
    intro ls input h
    have : input = [] := List.length_eq_zero.mp (Nat.le_zero.mp h)
    subst this
    simp [lexAll, segConcat]
  | succ n ih =>
    intro ls input h
    cases hsub : subLex ls.mode input with
    | none =>
      cases input with
      | nil => simp [lexAll, segConcat, subLex_nil]
      | cons c l =>
        have := subLex_cons_isSome ls.mode c l
        rw [hsub] at this
        simp at this
    | some pr =>
      obtain ⟨seg, rest⟩ := pr
      obtain ⟨happ, hne⟩ := subLex_spec hsub
      have hlt : rest.length + 1 ≤ input.length := by
        rw [← happ, List.length_append]
        have : 1 ≤ (segText seg).length := by
          cases hne2 : segText seg with
          | nil => exact absurd hne2 hne
          | cons a t => simp
        omega
      have hrest : rest.length ≤ n := by omega
      cases seg with
      | tok k t =>
        have : lexAll (n + 1) ls input =
            Seg.tok k t :: lexAll n (applyTransition k ls) rest := by
          rw [lexAll, hsub]
        rw [this, segConcat_cons, ih _ rest hrest]
        exact happ
      | ws t =>
        have : lexAll (n + 1) ls input = Seg.ws t :: lexAll n ls rest := by
          rw [lexAll, hsub]
        rw [this, segConcat_cons, ih _ rest hrest]
        exact happ

/-! ## Leaves of the parse tree

Modelled from the spec: the lalrpop grammar file is not among the sources
(only the generated parser's callers and tests are), so the relation
between the token stream and the leaves of the parse tree is taken from
the specification: every terminal token of the line becomes one leaf of
`parse(s)`, in pre-order (§4.B: the builder walks the tree allocating
nodes in pre-order; §3 invariant (ii): sibling spans are ordered and may
be non-adjacent because whitespace is skipped).  Hence the pre-order leaf
texts of `parse(s)` are exactly the emitted token texts of `s`, in
order. -/
def parseLeafTexts (s : List Char) : List (List Char) :=
  tokenTexts s

/-- Concatenation of the pre-order leaf texts of `parse(s)`. -/
def parseLeafConcat (s : List Char) : List Char :=
  (parseLeafTexts s).flatten

/-- The whole segment stream (tokens and skipped whitespace) restores the
line exactly. -/
theorem tokenizeSegs_concat (s : List Char) : segConcat (tokenizeSegs s) = s :=
  lexAll_concat s.length ⟨.top, []⟩ s (Nat.le_refl _)

/-- The token kind of a segment, when it is an emitted token. -/
def segKind : Seg → Option ASTKind
  | .tok k _ => some k
  | .ws _ => none

theorem all_takeWhile_self (p : Char → Bool) (l : List Char) :
    (l.takeWhile p).all p = true := by
  induction l with
  | nil => rfl
  | cons c t ih =>
    by_cases h : p c = true <;> simp [List.takeWhile_cons, h, ih]

theorem subLex_ws_all {m : Mode} {input t rest : List Char}
    (h : subLex m input = some (.ws t, rest)) : t.all isWsChar = true := by
  cases m with
  | top =>
    match input with
    | [] => simp [subLex, lexTop] at h
    | c :: l =>
      simp only [subLex, lexTop] at h
      split_ifs at h <;> simp at h
      exact h.1 ▸ all_takeWhile_self isWsChar (c :: l)
  | fn =>
    match input with
    | [] => simp [subLex, lexFn] at h
    | c :: l =>
      simp only [subLex, lexFn] at h
      split_ifs at h
      case pos =>
        simp at h
        exact h.1 ▸ all_takeWhile_self isWsChar (c :: l)
      case pos =>
        cases hs : fnSingleTok c with
        | some k => rw [hs] at h; simp at h
        | none =>
          rw [hs] at h
          dsimp only at h
          unfold lexFnDot at h
          cases l with
          | nil => simp at h
          | cons d u =>
            dsimp only at h
            split_ifs at h <;> simp at h
      all_goals
        cases hs : fnSingleTok c with
        | some k => rw [hs] at h; simp at h
        | none =>
          rw [hs] at h
          dsimp only at h
          simp at h
  | str =>
    match input with
    | [] => simp [subLex, lexStr] at h
    | c :: l =>
      simp only [subLex, lexStr] at h
      split_ifs at h <;> simp at h

theorem lexAll_ws_all :
    ∀ (fuel : Nat) (ls : LexState) (input : List Char) (sg : Seg),
      sg ∈ lexAll fuel ls input → isTokSeg sg = false →
      (segText sg).all isWsChar = true := by
  intro fuel
  induction fuel with
  | zero => intro ls input sg hm; simp [lexAll] at hm
  | succ n ih =>
    intro ls input sg hm hns
    cases hsub : subLex ls.mode input with
    | none =>
      rw [lexAll, hsub] at hm
      simp at hm
    | some pr =>
      obtain ⟨seg, rest⟩ := pr
      cases seg with
      | tok k t =>
        rw [lexAll, hsub] at hm
        rcases List.mem_cons.mp hm with heq | hmem
        · subst heq; simp [isTokSeg] at hns
        · exact ih _ rest sg hmem hns
      | ws t =>
        rw [lexAll, hsub] at hm
        rcases List.mem_cons.mp hm with heq | hmem
        · subst heq
          exact subLex_ws_all hsub
        · exact ih _ rest sg hmem hns

/-- Claim C9 (counterexample): for the accepted line `"echo a"` — two
`Literal` tokens, no `Error` token — the concatenation of the pre-order
leaf texts is `"echoa"`, not the original line: the whitespace skipped by
the tokenizer is not covered by any leaf, so the claimed round-trip
equality fails on a line containing whitespace. -/
theorem parse_roundtrip_counterexample :
    parseLeafConcat ("echo a".toList) ≠ "echo a".toList ∧
      parseLeafConcat ("echo a".toList) = "echoa".toList ∧
      ((tokenizeSegs ("echo a".toList)).filter isTokSeg).map segKind =
        [some ASTKind.Literal, some ASTKind.Literal] := by
  refine ⟨by decide, by decide, by decide⟩

/-- Claim C9 (amended): concatenating the pre-order leaf texts of
`parse(s)` yields `s` with the whitespace skipped by the tokenizer
removed: the full segment stream — the leaf tokens interleaved with the
skipped-whitespace runs, in their original order — concatenates to `s`
exactly, the leaf concatenation is its token-only part, and everything
dropped between leaves is whitespace. -/
theorem parse_roundtrip_with_whitespace (s : List Char) :
    segConcat (tokenizeSegs s) = s ∧
      parseLeafConcat s = segConcat ((tokenizeSegs s).filter isTokSeg) ∧
      ((tokenizeSegs s).filter (fun sg => !(isTokSeg sg))).all
          (fun sg => (segText sg).all isWsChar) = true := by
  refine ⟨tokenizeSegs_concat s, rfl, ?_⟩
  rw [List.all_eq_true]
  intro sg hsg
  have hmem : sg ∈ tokenizeSegs s := (List.mem_filter.mp hsg).1
  have hns : isTokSeg sg = false := by
    have := (List.mem_filter.mp hsg).2
    simpa using this
  exact lexAll_ws_all s.length ⟨.top, []⟩ s sg hmem hns

/-! ## Entity model (src/src/builtin/engine/mod.rs, entities.rs)

Closures stored in entities (callee dispatch functions and result
prototypes) are deep-embedded as tags, interpreted by `applyProto` and by
the evaluator's dispatch; the only closures the program ever installs are
the `cd` builtin's and the per-`Command` spawn closure. -/

/-- Primitive type tags (`enum Type`). -/
inductive Typ where
  | string
  | number
  | entity
  deriving DecidableEq

/-- An argument spec (`struct Argument`; the completion contributor is
irrelevant to evaluation and omitted). -/
structure ArgD where
  name : String
  possibleTypes : List Typ
  deriving DecidableEq

/-- Tag for a dispatch closure: the `cd` pseudo-execution builder, or the
spawn closure built by `Typed for Command::infer_value`. -/
inductive DispatchTag where
  | cdDispatch
  | commandDispatch (name : String) (args : List String) (nid : Nat)
  deriving DecidableEq

/-- Tag for a result-prototype closure; only `cd` installs one. -/
inductive ProtoTag where
  | cdProto
  deriving DecidableEq

/-- A callee (`struct Callee`). -/
structure CalleeD where
  arguments : List ArgD
  dispatch : DispatchTag
  resultPrototype : Option ProtoTag
  deriving DecidableEq

/-- An entity (`struct Entity`): name, the `String`/`Number` implicits
(modelled by the value they return, since the only implicits ever
installed are the constant ones of `Value::into_entity`), properties and
the optional callee.  The `prototype` back-pointer is informational only
and never read by inference or evaluation, so it is omitted. -/
inductive EntityD where
  | mk (name : String) (strImp : Option String) (numImp : Option ℚ)
       (props : List (String × EntityD)) (callee : Option CalleeD)

def EntityD.name : EntityD → String
  | .mk n _ _ _ _ => n

def EntityD.strImp : EntityD → Option String
  | .mk _ s _ _ _ => s

def EntityD.numImp : EntityD → Option ℚ
  | .mk _ _ q _ _ => q

def EntityD.props : EntityD → List (String × EntityD)
  | .mk _ _ _ p _ => p

def EntityD.callee : EntityD → Option CalleeD
  | .mk _ _ _ _ c => c

/-- `properties().get(name)` (HashMap lookup; names are unique). -/
def EntityD.getProp (e : EntityD) (key : String) : Option EntityD :=
  (e.props.find? (fun p => p.1 == key)).map (fun p => p.2)

/-- Whether the entity has an implicit for the given type tag
(`implicits().contains_key`); no code path ever installs an `Entity`
implicit. -/
def EntityD.hasImplicit (e : EntityD) : Typ → Bool
  | .string => e.strImp.isSome
  | .number => e.numImp.isSome
  | .entity => false

/-- A value (`enum Value`); `f64` numbers are modelled as rationals, which
is exact for every decimal literal the tokenizer admits. -/
inductive ValueD where
  | str (s : String)
  | num (q : ℚ)
  | ent (e : EntityD)

/-- `Value::into_entity`: strings and numbers lift to fresh entities with
the matching constant implicit and no properties. -/
def ValueD.intoEntity : ValueD → EntityD
  | .ent e => e
  | .str s => .mk s (some s) none [] none
  | .num q => .mk (toString q) none (some q) [] none

/-- The `cd` builtin entity (`make_cd` in src/src/builtin/entities.rs):
one `path : String` argument, the pseudo-execution dispatch, and a result
prototype. -/
def cdEntity : EntityD :=
  .mk "Change Directory call" none none []
    (some { arguments := [⟨"path", [.string]⟩],
            dispatch := .cdDispatch,
            resultPrototype := some .cdProto })

/-- The `global` entity after `initialize_universe`: only the `cd`
property. -/
def globalE : EntityD :=
  .mk "Global" none none [("cd", cdEntity)] none

/-- Interpretation of result-prototype tags.  `cd`'s prototype returns a
fresh `"cd success"` entity with a placeholder `path` property. -/
def applyProto : ProtoTag → EntityD → List (Option EntityD) → Option EntityD
  | .cdProto, _, _ =>
    some (.mk "cd success" none none [("path", (ValueD.str "kek").intoEntity)] none)

/-! ## Parse-tree nodes

`PTNode` stripped to the fields inference and evaluation read: kind, raw
text, the error-origin flag (`origin.value.kind() == Error`; the PT `kind`
of such a node is the expected kind), node id, children. -/

inductive PNode where
  | mk (kind : ASTKind) (data : String) (errOrigin : Bool) (nid : Nat)
       (children : List PNode)

def PNode.kind : PNode → ASTKind
  | .mk k _ _ _ _ => k

def PNode.data : PNode → String
  | .mk _ d _ _ _ => d

def PNode.errOrigin : PNode → Bool
  | .mk _ _ e _ _ => e

def PNode.nid : PNode → Nat
  | .mk _ _ _ i _ => i

def PNode.children : PNode → List PNode
  | .mk _ _ _ _ cs => cs

/-- Raw tree before id assignment (the `ASTNode` analogue; spans are kept
as their text slices). -/
inductive Raw where
  | mk (kind : ASTKind) (data : String) (errOrigin : Bool) (children : List Raw)

/-- The child loop of `parse_node`, abstracted over the recursive call:
each child is built with the running counter plus one, and after a child
returning `new_id` the counter becomes `new_id + 1`. -/
def buildSeq (step : Raw → Nat → PNode × Nat) : List Raw → Nat → List PNode × Nat
  | [], i => ([], i)
  | c :: cs, i =>
    let r1 := step c (i + 1)
    let r2 := buildSeq step cs (r1.2 + 1)
    (r1.1 :: r2.1, r2.2)

/-- `ParseTreeBuilder::parse_node`: allocate the node with the running id,
then the children (fuel-indexed on tree depth; every concrete use below
supplies ample fuel). -/
def buildNode : Nat → Raw → Nat → PNode × Nat
  | 0, .mk k d e _, i => (.mk k d e i [], i)
  | fuel + 1, .mk k d e cs, i =>
    let r := buildSeq (fun c j => buildNode fuel c j) cs i
    (.mk k d e i r.1, r.2)

/-- `ParseTreeBuilder::parse_ast`: build from id 0. -/
def build (r : Raw) : PNode :=
  (buildNode 64 r 0).1

/-! ## Inference (the `Typed` impls in src/src/parser/ast.rs)

`infer_value` returns `Option<EntityRef>` but can panic (`todo!()`,
`unwrap()`, slice panics); panics are modelled as `Except.error` with the
panic message. -/

/-- The kinds for which `downcast_to_typed` returns a `Typed` impl. -/
def downcastTyped (k : ASTKind) : Bool :=
  match k with
  | .StringLiteral | .NumberLiteral | .Function | .PropertyCall
  | .Delimited | .Piped | .Sequenced | .BracedCommand | .Command
  | .PropertyInsn | .PropertyName | .Parameter => true
  | _ => false

/-- Numeric value of a digit run. -/
def digitsVal (l : List Char) : ℕ :=
  l.foldl (fun a c => a * 10 + (c.toNat - '0'.toNat)) 0

/-- `str::parse::<f64>` restricted to the shapes the `Number` token regex
`[0-9]*(\.[0-9]+)?` can produce; other strings fail. -/
def parseDec (s : String) : Option ℚ :=
  match s.toList with
  | [] => none
  | l =>
    match l.dropWhile isDigitChar with
    | [] => some (digitsVal (l.takeWhile isDigitChar))
    | '.' :: frac =>
      if frac ≠ [] ∧ frac.all isDigitChar then
        some ((digitsVal (l.takeWhile isDigitChar) : ℚ) +
              (digitsVal frac : ℚ) / ((10 : ℚ) ^ frac.length))
      else none
    | _ => none

/-- The semantic value of a `StringLiteral` node text (`Typed for
StringLiteral`): drop the opening quote, and the closing quote when
present. -/
def stringLitBody (l : List Char) (restL : List Char) : List Char :=
  if l.getLast? = some '"' ∧ 1 < l.length then restL.dropLast else restL

/-- The synthetic entity built by `Typed for Command::infer_value`: no
properties or implicits, a callee with no declared arguments, no result
prototype, and the spawn closure capturing the name, the argument texts
and the node id.  The purely diagnostic label (Rust formats name and
args together) is kept as the command name. -/
def commandEntity (cmdName : String) (args : List String) (nid : Nat) : EntityD :=
  .mk cmdName none none []
    (some { arguments := [],
            dispatch := .commandDispatch cmdName args nid,
            resultPrototype := none })

/-- `values[i]` padding of `Typed for PropertyCall`: one slot per declared
argument, `None` past the inferred values. -/
def padArgs (count : Nat) (values : List (Option EntityD)) : List (Option EntityD) :=
  (List.range count).map (fun i => (values.get? i).join)

/-- Sequencing of the argument inferences of `Typed for PropertyCall`
(`collect` over the mapped iterator): the first panic aborts the walk. -/
def collectInfer : List (Except String (Option EntityD)) →
    Except String (List (Option EntityD))
  | [] => .ok []
  | .error m :: _ => .error m
  | .ok v :: rest =>
    match collectInfer rest with
    | .error m => .error m
    | .ok vs => .ok (v :: vs)

/-- Trait-object dispatch of `infer_value`: `k` is the kind whose `Typed`
impl runs, `n` the node passed to it (they differ only in the
`Parameter` impl, which dispatches on its child's kind but passes
itself). -/
def inferAs : Nat → ASTKind → PNode → Except String (Option EntityD)
  | 0, _, _ => .error "OUT_OF_FUEL"
  | fuel + 1, k, n =>
    match k with
    | .StringLiteral =>
      match n.data.toList with
      | [] => .error "byte index out of bounds"
      | c :: restL =>
        .ok (some ((ValueD.str (String.mk (stringLitBody (c :: restL) restL))).intoEntity))
    | .NumberLiteral =>
      match parseDec n.data with
      | some q => .ok (some ((ValueD.num q).intoEntity))
      | none => .error "called unwrap on an Err value"
    | .Function =>
      match n.children.get? 1 with
      | none => .error "index out of bounds"
      | some c =>
        if downcastTyped c.kind then
          match inferAs fuel c.kind c with
          | .error m => .error m
          | .ok _ => .ok none
        else .ok none
    | .PropertyCall =>
      match n.children.get? 0 with
      | none => .error "index out of bounds"
      | some left =>
        if downcastTyped left.kind then
          match inferAs fuel left.kind left with
          | .error m => .error m
          | .ok none => .ok none
          | .ok (some le) =>
            match le.callee with
            | none => .ok none
            | some cal =>
              match cal.resultPrototype with
              | none => .ok none
              | some tag =>
                match n.children.get? 1 with
                | none => .error "index out of bounds"
                | some right =>
                  match collectInfer
                      ((right.children.filter (fun a => downcastTyped a.kind)).map
                        (fun a => inferAs fuel a.kind a)) with
                  | .error m => .error m
                  | .ok values =>
                    .ok (applyProto tag le (padArgs cal.arguments.length values))
        else .error "called unwrap on a None value"
    | .PropertyName => .ok (globalE.getProp n.data)
    | .PropertyInsn =>
      match n.children.get? 0 with
      | none => .error "index out of bounds"
      | some left =>
        if downcastTyped left.kind then
          match inferAs fuel left.kind left with
          | .error m => .error m
          | .ok l =>
            if n.children.length = 1 then .ok l
            else
              match l with
              | none => .ok none
              | some le =>
                match n.children.get? 2 with
                | none => .error "index out of bounds"
                | some right => .ok (le.getProp right.data)
        else .error "called unwrap on a None value"
    | .BracedCommand =>
      match n.children.get? 1 with
      | none => .error "index out of bounds"
      | some c =>
        if downcastTyped c.kind then inferAs fuel c.kind c
        else .error "called unwrap on a None value"
    | .Delimited => .error "not yet implemented"
    | .Sequenced => .error "not yet implemented"
    | .Piped => .error "not yet implemented"
    | .Command =>
      match n.children.get? 0, n.children.get? 1 with
      | some cn, some ca =>
        .ok (some (commandEntity cn.data
          (if 0 < ca.data.length then ca.children.map (fun x => x.data) else [])
          n.nid))
      | _, _ => .error "called unwrap on a None value"
    | .Parameter =>
      match n.children.get? 0 with
      | none => .error "index out of bounds"
      | some c =>
        if downcastTyped c.kind then inferAs fuel c.kind n
        else .ok none
    | _ => .error "no Typed impl"

/-- `infer_value` as called from outside: dispatch on the node's own
kind. -/
def inferValue (fuel : Nat) (n : PNode) : Except String (Option EntityD) :=
  inferAs fuel n.kind n

/-- Claim C7 (counterexample): `infer_value` is not total — on a
`Delimited` node it hits `todo!()` and panics instead of returning
`None`. -/
theorem infer_delimited_panics :
    inferValue 2 (PNode.mk .Delimited "" false 0 []) = .error "not yet implemented" := by
  rfl

/-- Claim C7 (amended): inference returns `None` without raising for an
unresolvable `PropertyName`, but on the execution-only kinds `Delimited`,
`Sequenced` and `Piped` `infer_value` panics via `todo!()` (and
`BracedCommand` panics through its `Delimited` body). -/
theorem infer_totality_amended :
    (∀ (fuel : Nat) (n : PNode), n.kind = .PropertyName →
        globalE.getProp n.data = none → inferValue (fuel + 1) n = .ok none)
    ∧ (∀ (fuel : Nat) (n : PNode),
        n.kind = .Delimited ∨ n.kind = .Sequenced ∨ n.kind = .Piped →
        inferValue (fuel + 1) n = .error "not yet implemented") := by
  constructor
  · intro fuel n hk hget
    unfold inferValue
    rw [hk]
    unfold inferAs
    rw [hget]
  · intro fuel n hk
    unfold inferValue
    rcases hk with h | h | h <;> rw [h] <;> rfl

/-- Witness for `infer_totality_amended` at concrete inputs: `lol` is not
a `global` property, and a concrete `Sequenced` node panics. -/
theorem infer_totality_amended_witness :
    inferValue 1 (PNode.mk .PropertyName "lol" false 0 []) = .ok none ∧
      inferValue 1 (PNode.mk .Sequenced "a & b" false 0 []) =
        .error "not yet implemented" :=
  ⟨infer_totality_amended.1 0 (PNode.mk .PropertyName "lol" false 0 []) rfl rfl,
   infer_totality_amended.2 0 (PNode.mk .Sequenced "a & b" false 0 [])
     (Or.inr (Or.inl rfl))⟩

/-- The parse tree of the line `$5`, with builder-assigned node ids. -/
def funcFiveTree : PNode :=
  build (.mk .Function "$5" false
    [.mk .Dollar "$" false [], .mk .NumberLiteral "5" false []])

/-- The `NumberLiteral` child of `funcFiveTree` (id 3 per the builder's
id arithmetic). -/
def fiveNode : PNode :=
  .mk .NumberLiteral "5" false 3 []

/-- Claim C8 (code bug): `Typed for Function::infer_value` computes the
inference of its `Value` child and then returns `None` unconditionally
(`if v.is_none() { return None; } return None;`), so `$5` infers to
`None` even though its `NumberLiteral` child infers to the lifted number
entity `5`. -/
theorem function_infer_discards_child :
    inferValue 3 funcFiveTree = .ok none ∧
      funcFiveTree.children.get? 1 = some fiveNode ∧
      inferValue 2 fiveNode = .ok (some ((ValueD.num 5).intoEntity)) := by
  refine ⟨rfl, rfl, ?_⟩
  show .ok (some ((ValueD.num ((5 : ℕ) : ℚ)).intoEntity)) =
    Except.ok (some ((ValueD.num 5).intoEntity))
  norm_num

/-! ## Evaluator (src/src/runtime/execution.rs)

State the evaluator touches is made explicit: the process CWD and a trace
of observable events (spawned / waited processes, created pipes, reported
errors).  OS failure points that the claims do not exercise (fd clone,
pipe creation, `dup2`) are modelled as succeeding; process wait outcomes,
directory accessibility, and spawn failures come from an environment
oracle.  Rust panics are a distinct outcome (`POr.panicked`). -/

/-- Diagnostic kinds (`ErrorType`; the spec's five kinds). -/
inductive ErrKind where
  | syntaxKind
  | semantic
  | execution
  | cannotCloneFd
  | cannotCreatePipe
  deriving DecidableEq

/-- `EntityExecutionError`: per-node diagnostics. -/
structure EEE where
  errors : List (Nat × ErrKind × String)
  deriving DecidableEq

/-- `EntityExecutionError::new_single`. -/
def singleErr (nid : Nat) (k : ErrKind) (note : String) : EEE :=
  ⟨[(nid, k, note)]⟩

/-- Symbolic file descriptors: the three standard streams and the two
ends of the anonymous pipe created at loop index `i`.  `try_clone`/`dup`
of a descriptor denotes the same underlying file description, so cloning
is the identity on tags. -/
inductive FdTag where
  | stdinFd
  | stdoutFd
  | stderrFd
  | pipeRd (i : Nat)
  | pipeWr (i : Nat)
  deriving DecidableEq

/-- `ExecutionConfig`: the optional three std fds plus the blame node id. -/
structure Cfg where
  stdIn : Option FdTag
  stdOut : Option FdTag
  stdErr : Option FdTag
  pt : Nat
  deriving DecidableEq

/-- Outcome of `Child::wait`: an exit status (`code = none` when killed
by a signal; `success()` iff `code = some 0`), or an error of the wait
call itself. -/
inductive WaitOut where
  | exited (code : Option Int)
  | failed (msg : String)

/-- The environment oracle: which directories are accessible, each
command's wait outcome, and whether spawning a command fails. -/
structure Env where
  fs : List String
  wait : String → WaitOut
  spawnErr : String → Option String

/-- Observable events of one evaluation, in order. -/
inductive Event where
  | spawned (name : String) (cfg : Cfg)
  | waited (name : String)
  | pipeMade (i : Nat)
  | reported (nids : List Nat)
  deriving DecidableEq

/-- Mutable shell state: the CWD and the event trace. -/
structure St where
  cwd : String
  events : List Event

/-- Append one event. -/
def St.push (st : St) (e : Event) : St :=
  { st with events := st.events ++ [e] }

/-- A pending `Execution`: a spawned process awaiting `wait`, or the
`cd` pseudo-execution thunk with its captured argument entities. -/
inductive ExecK where
  | procExec (nid : Nat) (name : String)
  | pseudoCd (pt : Nat) (args : List EntityD)

/-- `ExecutionState`: an already-computed value, or a pending execution. -/
inductive ExecSt where
  | value (r : Except EEE EntityD)
  | execution (k : ExecK)

/-- Computation outcome or Rust panic. -/
inductive POr (α : Type) where
  | panicked (msg : String)
  | done (a : α)

/-- The success entity of `ProcessExecution::execute`: a `status`
property carrying `code().unwrap_or(-1)`. -/
def execResultEntity (code : Option Int) : EntityD :=
  .mk "Execution result" none none
    [("status", (ValueD.num ((code.getD (-1) : Int) : ℚ)).intoEntity)] none

/-- `ProcessExecution::execute` (entities.rs:188-206): on a successful
wait, a zero status yields the result entity and any other status is an
`Execution` error; a failed wait is an `Execution` error. -/
def processExecutionExecute (nid : Nat) (w : WaitOut) : Except EEE EntityD :=
  match w with
  | .exited c =>
    if c = some 0 then .ok (execResultEntity c)
    else .error (singleErr nid .execution "Execution failed with status")
  | .failed m => .error (singleErr nid .execution m)

/-- The entity returned by a successful `cd` (builtin/entities.rs:27):
fresh, no properties. -/
def cdSuccessEntity : EntityD :=
  .mk "cd success" none none [] none

/-- Run a pending execution (`Execution::execute`).  For a process:
wait, then `ProcessExecutionExecute`.  For the `cd` pseudo-execution
thunk: `args.get(0).unwrap().try_as_string().unwrap()`, then
`set_current_dir`; on failure an `Execution` error blamed on the
config's `pt` node, with the CWD unchanged. -/
def runExecK (env : Env) : ExecK → St → POr (Except EEE EntityD) × St
  | .procExec nid nm, st =>
    (.done (processExecutionExecute nid (env.wait nm)), st.push (.waited nm))
  | .pseudoCd pt args, st =>
    match args.get? 0 with
    | none => (.panicked "called unwrap on a None value", st)
    | some a =>
      match a.strImp with
      | none => (.panicked "called unwrap on a None value", st)
      | some s =>
        if s ∈ env.fs then (.done (.ok cdSuccessEntity), { st with cwd := s })
        else (.done (.error (singleErr pt .execution "Could not change directory")),
              st)

/-- `ExecutionState::execute`. -/
def ExecSt.runExec (env : Env) : ExecSt → St → POr (Except EEE EntityD) × St
  | .value r, st => (.done r, st)
  | .execution k, st => runExecK env k st

/-- Invoke a callee's dispatch closure (`(exe.callee)(self, args, config)`).
The `Command` closure spawns the process (recorded as a `spawned` event
with the config it received) or fails; the `cd` closure just packages the
pseudo-execution. -/
def applyCallee (env : Env) (tag : DispatchTag) (args : List EntityD)
    (cfg : Cfg) (st : St) : Except EEE ExecK × St :=
  match tag with
  | .commandDispatch nm _cargs nid =>
    match env.spawnErr nm with
    | some m => (.error (singleErr nid .execution m), st)
    | none => (.ok (.procExec nid nm), st.push (.spawned nm cfg))
  | .cdDispatch => (.ok (.pseudoCd cfg.pt args), st)

/-- The loop of `execute_delimited` over the separator-filtered children:
all but the last are executed in order; an error is reported (the
`report` call prints each blamed node) and the walk continues; the last
child's execution state is returned unexecuted. -/
def delimLoop (step : PNode → St → POr ExecSt × St)
    (runE : ExecSt → St → POr (Except EEE EntityD) × St) :
    List PNode → St → POr ExecSt × St
  | [], st => (.panicked "called unwrap on a None value", st)
  | [last], st => step last st
  | c :: c2 :: rest, st =>
    match step c st with
    | (.panicked m, st2) => (.panicked m, st2)
    | (.done es, st2) =>
      match runE es st2 with
      | (.panicked m, st3) => (.panicked m, st3)
      | (.done (.ok _), st3) => delimLoop step runE (c2 :: rest) st3
      | (.done (.error e), st3) =>
        delimLoop step runE (c2 :: rest)
          (st3.push (.reported (e.errors.map (fun x => x.1))))

/-- The loop of `execute_sequenced`: like `delimLoop`, but the first
error is returned immediately (as a value state) and the remaining
children are not evaluated. -/
def seqLoop (step : PNode → St → POr ExecSt × St)
    (runE : ExecSt → St → POr (Except EEE EntityD) × St) :
    List PNode → St → POr ExecSt × St
  | [], st => (.panicked "called unwrap on a None value", st)
  | [last], st => step last st
  | c :: c2 :: rest, st =>
    match step c st with
    | (.panicked m, st2) => (.panicked m, st2)
    | (.done es, st2) =>
      match runE es st2 with
      | (.panicked m, st3) => (.panicked m, st3)
      | (.done (.ok _), st3) => seqLoop step runE (c2 :: rest) st3
      | (.done (.error e), st3) => (.done (.value (.error e)), st3)

/-- The creation loop of `execute_piped` over the pipe-filtered children:
for every child but the last, create pipe `i` and hand the child
`(last_read, pipe i write end, final_err)`; the last child receives
`(last_read, final_out, final_err)`.  Each child's execution is created
(spawning processes) but not yet executed. -/
def pipedLoop (step : PNode → Cfg → St → POr ExecSt × St)
    (finalOut finalErr : FdTag) :
    List PNode → Nat → FdTag → St → POr (List ExecSt) × St
  | [], _, _, st => (.done [], st)
  | [c], _, lastRead, st =>
    match step c ⟨some lastRead, some finalOut, some finalErr, c.nid⟩ st with
    | (.panicked m, st2) => (.panicked m, st2)
    | (.done es, st2) => (.done [es], st2)
  | c :: c2 :: rest, i, lastRead, st =>
    match step c ⟨some lastRead, some (.pipeWr i), some finalErr, c.nid⟩
        (st.push (.pipeMade i)) with
    | (.panicked m, st2) => (.panicked m, st2)
    | (.done es, st2) =>
      match pipedLoop step finalOut finalErr (c2 :: rest) (i + 1) (.pipeRd i) st2 with
      | (.panicked m, st3) => (.panicked m, st3)
      | (.done l, st3) => (.done (es :: l), st3)

/-- The FIFO loop of `execute_piped`: pop executions from the front and
execute each, keeping only the last result. -/
def fifoRun (runE : ExecSt → St → POr (Except EEE EntityD) × St) :
    List ExecSt → Option (Except EEE EntityD) → St →
    POr (Option (Except EEE EntityD)) × St
  | [], last, st => (.done last, st)
  | es :: rest, _, st =>
    match runE es st with
    | (.panicked m, st2) => (.panicked m, st2)
    | (.done r, st2) => fifoRun runE rest (some r) st2

/-- The argument loop of `property_call_execution`: for each `Parameter`
child (after the opening parenthesis), execute its value child; the
first error aborts. -/
def argsLoop (step : PNode → St → POr ExecSt × St)
    (runE : ExecSt → St → POr (Except EEE EntityD) × St) :
    List PNode → St → POr (Except EEE (List EntityD)) × St
  | [], st => (.done (.ok []), st)
  | x :: rest, st =>
    match x.children.get? 0 with
    | none => (.panicked "index out of bounds", st)
    | some v =>
      match step v st with
      | (.panicked m, st2) => (.panicked m, st2)
      | (.done es, st2) =>
        match runE es st2 with
        | (.panicked m, st3) => (.panicked m, st3)
        | (.done (.error e), st3) => (.done (.error e), st3)
        | (.done (.ok ent), st3) =>
          match argsLoop step runE rest st3 with
          | (.panicked m, st4) => (.panicked m, st4)
          | (.done (.error e), st4) => (.done (.error e), st4)
          | (.done (.ok l), st4) => (.done (.ok (ent :: l)), st4)

/-- Result of the argument validation loop of `property_call_execution`. -/
inductive TCRes where
  | okTC
  | errTC (e : EEE)
  | panicTC (m : String)

/-- The validation loop before dispatch: `validate_types` demands some
accepted type with a matching implicit; a failure is blamed on
`parenthesis.children()[1 + i]` (a panic if that index is absent). -/
def typeCheckArgs (paren : PNode) : List ArgD → List EntityD → Nat → TCRes
  | [], _, _ => .okTC
  | _, [], _ => .okTC
  | spec :: srest, a :: arest, i =>
    if spec.possibleTypes.any (fun t => a.hasImplicit t) then
      typeCheckArgs paren srest arest (i + 1)
    else
      match paren.children.get? (1 + i) with
      | none => .panicTC "index out of bounds"
      | some blame =>
        .errTC (singleErr blame.nid .semantic "Argument is not of the expected type")

/-- The evaluator functions of execution.rs, one per production level
(`Ph` selects which function runs, mirroring the Rust call graph). -/
inductive Ph where
  | delim
  | seq
  | piped
  | cmdOrFn
  | func
  | value
  | insn
  | call

/-- The recursive evaluator.  Each `Ph` case is the direct translation of
the correspondingly named `execute_*` function. -/
def execPh (env : Env) : Nat → Ph → PNode → Cfg → St → POr ExecSt × St
  | 0, _, _, _, st => (.panicked "OUT_OF_FUEL", st)
  | fuel + 1, ph, n, cfg, st =>
    match ph with
    | .delim =>
      if n.kind ≠ ASTKind.Delimited then execPh env fuel .seq n cfg st
      else
        delimLoop (fun c st2 => execPh env fuel .seq c cfg st2)
          (fun es st2 => es.runExec env st2)
          (n.children.filter (fun c => c.kind ≠ ASTKind.SemiColon)) st
    | .seq =>
      if n.kind ≠ ASTKind.Sequenced then execPh env fuel .piped n cfg st
      else
        seqLoop (fun c st2 => execPh env fuel .piped c cfg st2)
          (fun es st2 => es.runExec env st2)
          (n.children.filter (fun c => c.kind ≠ ASTKind.SemiColon)) st
    | .piped =>
      if n.kind ≠ ASTKind.Piped then execPh env fuel .cmdOrFn n cfg st
      else
        -- execution.rs:71-79 falls back to a clone of STDERR for all three
        -- of final_err, final_out and first_in when the config slot is None
        match pipedLoop (fun c ccfg st2 => execPh env fuel .cmdOrFn c ccfg st2)
            (cfg.stdOut.getD FdTag.stderrFd)
            (cfg.stdErr.getD FdTag.stderrFd)
            (n.children.filter (fun c => c.kind ≠ ASTKind.Pipe)) 0
            (cfg.stdIn.getD FdTag.stderrFd) st with
        | (.panicked m, st2) => (.panicked m, st2)
        | (.done execs, st2) =>
          match fifoRun (fun es st3 => es.runExec env st3) execs none st2 with
          | (.panicked m, st3) => (.panicked m, st3)
          | (.done none, st3) => (.panicked "called unwrap on a None value", st3)
          | (.done (some r), st3) => (.done (.value r), st3)
    | .cmdOrFn =>
      match n.kind with
      | .Function => execPh env fuel .func n cfg st
      | .Command =>
        match inferAs fuel ASTKind.Command n with
        | .error m => (.panicked m, st)
        | .ok none =>
          (.done (.value (.error
            (singleErr n.nid .semantic "Could not infer execution value"))), st)
        | .ok (some e) =>
          match e.callee with
          | none =>
            (.done (.value (.error (singleErr n.nid .semantic "No callee"))), st)
          | some exe =>
            match applyCallee env exe.dispatch [] cfg st with
            | (.error e2, st2) => (.done (.value (.error e2)), st2)
            | (.ok k, st2) => (.done (.execution k), st2)
      | _ => (.panicked "Expected command or function", st)
    | .func =>
      match n.children.get? 1 with
      | none => (.panicked "index out of bounds", st)
      | some c => execPh env fuel .value c cfg st
    | .value =>
      match n.kind with
      | .StringLiteral | .NumberLiteral =>
        (match inferAs fuel n.kind n with
         | .error m => (.panicked m, st)
         | .ok none =>
           (.done (.value (.error (singleErr n.nid .semantic "Could not infer value"))),
            st)
         | .ok (some e) => (.done (.value (.ok e)), st))
      | .BracedCommand =>
        (match n.children.get? 1 with
         | none => (.panicked "index out of bounds", st)
         | some c => execPh env fuel .delim c cfg st)
      | .PropertyInsn => execPh env fuel .insn n cfg st
      | .PropertyCall => execPh env fuel .call n cfg st
      | _ => (.panicked "Unexpected function node", st)
    | .insn =>
      if 1 < n.children.length then
        match n.children.get? 0 with
        | none => (.panicked "index out of bounds", st)
        | some c0 =>
          match execPh env fuel .value c0 cfg st with
          | (.panicked m, st2) => (.panicked m, st2)
          | (.done es, st2) =>
            match es.runExec env st2 with
            | (.panicked m, st3) => (.panicked m, st3)
            | (.done (.error e), st3) => (.done (.value (.error e)), st3)
            | (.done (.ok left), st3) =>
              match n.children.get? 2 with
              | none => (.panicked "index out of bounds", st3)
              | some nameNode =>
                (.done (.value (match left.getProp nameNode.data with
                  | none =>
                    .error (singleErr n.nid .semantic "Property does not exist")
                  | some e => .ok e)), st3)
      else
        match n.children.get? 0 with
        | none => (.panicked "index out of bounds", st)
        | some nameNode =>
          (.done (.value (match globalE.getProp nameNode.data with
            | none => .error (singleErr n.nid .semantic "Property does not exist")
            | some e => .ok e)), st)
    | .call =>
      match n.children.get? 0 with
      | none => (.panicked "index out of bounds", st)
      | some c0 =>
        match execPh env fuel .insn c0 cfg st with
        | (.panicked m, st2) => (.panicked m, st2)
        | (.done es, st2) =>
          match es.runExec env st2 with
          | (.panicked m, st3) => (.panicked m, st3)
          | (.done (.error e), st3) => (.done (.value (.error e)), st3)
          | (.done (.ok left), st3) =>
            match n.children.get? 1 with
            | none => (.panicked "index out of bounds", st3)
            | some paren =>
              match argsLoop (fun c st4 => execPh env fuel .value c cfg st4)
                  (fun es st4 => es.runExec env st4)
                  ((paren.children.drop 1).filter
                    (fun x => x.kind = ASTKind.Parameter)) st3 with
              | (.panicked m, st4) => (.panicked m, st4)
              | (.done (.error e), st4) => (.done (.value (.error e)), st4)
              | (.done (.ok args), st4) =>
                match left.callee with
                | none =>
                  (.done (.value (.error
                    (singleErr n.nid .semantic "Property is not callable"))), st4)
                | some exe =>
                  if exe.arguments.length ≠ args.length then
                    (.done (.value (.error
                      (singleErr paren.nid .semantic "Wrong number of arguments"))),
                     st4)
                  else
                    match typeCheckArgs paren exe.arguments args 0 with
                    | .panicTC m => (.panicked m, st4)
                    | .errTC e => (.done (.value (.error e)), st4)
                    | .okTC =>
                      match applyCallee env exe.dispatch args cfg st4 with
                      | (.error e2, st5) => (.done (.value (.error e2)), st5)
                      | (.ok k, st5) => (.done (.execution k), st5)

/-- `execute` (the evaluator entry point). -/
def executeTree (env : Env) (fuel : Nat) (n : PNode) (cfg : Cfg) (st : St) :
    POr ExecSt × St :=
  execPh env fuel .delim n cfg st

/-- `execute(tree, config).execute()` as in `main`: evaluate, then run
the resulting execution state. -/
def execLine (env : Env) (fuel : Nat) (n : PNode) (cfg : Cfg) (st : St) :
    POr (Except EEE EntityD) × St :=
  match executeTree env fuel n cfg st with
  | (.panicked m, st2) => (.panicked m, st2)
  | (.done es, st2) => es.runExec env st2

/-- `find_child_with_kind_rec(ASTKind::Error)` from the root: a node
matches when its PT kind is `Error` or its origin AST node was an error
node (error nodes carry the expected kind as PT kind). -/
def hasErrNode : Nat → PNode → Bool
  | 0, _ => false
  | fuel + 1, n =>
    (n.kind = ASTKind.Error || n.errOrigin) ||
      n.children.any (fun c => hasErrNode fuel c)

/-- Outcome of one committed REPL line. -/
inductive ReplOut where
  | syntaxError
  | evaluated (r : POr (Except EEE EntityD)) (st : St)

/-- One iteration of the `main` loop on a committed non-empty line whose
tree is `n`: if the tree contains an `Error` node, print "Syntax error"
and continue — the evaluator is never entered; otherwise evaluate with an
all-`None` config blamed on the root. -/
def replStep (env : Env) (fuel : Nat) (cwd : String) (n : PNode) : ReplOut :=
  if hasErrNode fuel n then .syntaxError
  else .evaluated
    (execLine env fuel n ⟨none, none, none, n.nid⟩ ⟨cwd, []⟩).1
    (execLine env fuel n ⟨none, none, none, n.nid⟩ ⟨cwd, []⟩).2

/-! ## The `$cd(p)` parse tree -/

/-- The raw text of a string literal (both quotes included, as the
`StringLiteral` node's span covers them). -/
def strLitData (p : String) : String :=
  "\"" ++ p ++ "\""

/-- Modelled from the spec: the lalrpop grammar file is absent from the
sources, so the shape of a simple property call is taken from §4.B
(`Function := "$" Value`, `PropertyCall := PropertyName
ParenthesizedArgumentsList?` reached through a `PropertyInsn`) together
with the evaluator's indexing (`execute_function` reads `children[1]`,
`execute_property_call` reads `children[0]` as the property instruction
and `children[1]` as the parenthesized list, `execute_property_insn`
reads its single child as the name; terminal tokens are children).  This
is the only shape on which `$cd("/tmp")` can succeed as the spec's
scenario 1 requires. -/
def cdRaw (p : String) : Raw :=
  .mk .Function ("$cd(" ++ strLitData p ++ ")") false
    [.mk .Dollar "$" false [],
     .mk .PropertyCall ("cd(" ++ strLitData p ++ ")") false
       [.mk .PropertyInsn "cd" false
          [.mk .PropertyName "cd" false []],
        .mk .ParenthesizedArgumentsList ("(" ++ strLitData p ++ ")") false
          [.mk .OpenParen "(" false [],
           .mk .Parameter (strLitData p) false
             [.mk .StringLiteral (strLitData p) false []],
           .mk .CloseParen ")" false []]]]

/-- The `$cd(p)` parse tree with builder-assigned ids. -/
def cdTree (p : String) : PNode :=
  build (cdRaw p)

/-- The `$cd(...)` tree shape with the ids the builder assigns spelled
out (root 0, `PropertyCall` 3) and the argument literal's raw text `d`. -/
def cdShape (d : String) : PNode :=
  .mk .Function ("$cd(" ++ d ++ ")") false 0
    [.mk .Dollar "$" false 1 [],
     .mk .PropertyCall ("cd(" ++ d ++ ")") false 3
       [.mk .PropertyInsn "cd" false 4
          [.mk .PropertyName "cd" false 5 []],
        .mk .ParenthesizedArgumentsList ("(" ++ d ++ ")") false 8
          [.mk .OpenParen "(" false 9 [],
           .mk .Parameter d false 11
             [.mk .StringLiteral d false 12 []],
           .mk .CloseParen ")" false 15 []]]]

theorem cdTree_eq (p : String) : cdTree p = cdShape (strLitData p) := rfl

theorem strLitData_toList (p : String) :
    (strLitData p).toList = '"' :: (p.toList ++ ['"']) := by
  show (strLitData p).data = '"' :: (p.data ++ ['"'])
  simp [strLitData, String.data_append]

theorem inferAs_strLitData (fuel : Nat) (e : Bool) (i : Nat) (cs : List PNode)
    (p : String) :
    inferAs (fuel + 1) .StringLiteral (.mk .StringLiteral (strLitData p) e i cs) =
      .ok (some ((ValueD.str p).intoEntity)) := by
  have hd : (PNode.mk .StringLiteral (strLitData p) e i cs).data.toList =
      '"' :: (p.toList ++ ['"']) := strLitData_toList p
  unfold inferAs
  rw [hd]
  show Except.ok (some ((ValueD.str
      (String.mk (stringLitBody ('"' :: (p.toList ++ ['"'])) (p.toList ++ ['"'])))).intoEntity)) = _
  unfold stringLitBody
  rw [if_pos]
  · rw [List.dropLast_concat]
    rfl
  · constructor
    · rw [show ('"' :: (p.toList ++ ['"'])) = ('"' :: p.toList) ++ ['"'] by simp]
      exact List.getLast?_concat _
    · simp

/-- Reduction of the whole `$cd(...)` evaluation down to the pending
pseudo-execution: property resolution, argument evaluation and
validation all succeed, no observable event fires, and the
pseudo-execution captures the config's blame node. -/
theorem executeTree_cdShape (env : Env) (d : String) (v : EntityD) (cfg : Cfg)
    (st : St)
    (hinf : inferAs 1 ASTKind.StringLiteral (.mk .StringLiteral d false 12 []) =
      .ok (some v))
    (htype : v.strImp.isSome = true) :
    executeTree env 9 (cdShape d) cfg st =
      (.done (.execution (.pseudoCd cfg.pt [v])), st) := by
  unfold executeTree cdShape
  simp only [execPh, PNode.kind, PNode.children, PNode.data, PNode.nid,
    List.get?, List.filter, List.drop, List.length, argsLoop, ExecSt.runExec,
    delimLoop, seqLoop, applyCallee, typeCheckArgs, globalE, cdEntity,
    EntityD.getProp, EntityD.callee, EntityD.props, EntityD.hasImplicit,
    List.find?, List.any, hinf]
  simp [typeCheckArgs, EntityD.hasImplicit, htype, applyCallee]

/-- An environment where only `/tmp` is accessible and every command
exits 0. -/
def envTmp : Env :=
  ⟨["/tmp"], fun _ => .exited (some 0), fun _ => none⟩

/-- An environment where no directory is accessible. -/
def envNone : Env :=
  ⟨[], fun _ => .exited (some 0), fun _ => none⟩

/-- Claim C2 (counterexample): `$cd("/tmp")` with `/tmp` accessible does
change the CWD, but the returned entity is the bare `"cd success"`
entity: it has no `status` property and no `path` property at all. -/
theorem cd_success_lacks_status_and_path :
    execLine envTmp 9 (cdTree "/tmp") ⟨none, none, none, 0⟩ ⟨"/", []⟩ =
      (.done (.ok cdSuccessEntity), ⟨"/tmp", []⟩) ∧
      cdSuccessEntity.getProp "status" = none ∧
      cdSuccessEntity.getProp "path" = none ∧
      cdSuccessEntity.props = [] :=
  ⟨rfl, rfl, rfl, rfl⟩

/-- Claim C2 (amended): for every accessible directory `p`, evaluating
`$cd(p)` changes the process CWD to `p` and returns a result entity —
the fresh `"cd success"` entity, which carries no properties (in
particular neither `status` nor `path`). -/
theorem cd_accessible_changes_cwd (p cwd : String) (fs : List String)
    (w : String → WaitOut) (sp : String → Option String) (h : p ∈ fs) :
    execLine ⟨fs, w, sp⟩ 9 (cdTree p) ⟨none, none, none, 0⟩ ⟨cwd, []⟩ =
      (.done (.ok cdSuccessEntity), ⟨p, []⟩) ∧
      cdSuccessEntity.props = [] := by
  refine ⟨?_, rfl⟩
  unfold execLine
  rw [cdTree_eq,
    executeTree_cdShape ⟨fs, w, sp⟩ (strLitData p) ((ValueD.str p).intoEntity)
      ⟨none, none, none, 0⟩ ⟨cwd, []⟩ (inferAs_strLitData 0 false 12 [] p) rfl]
  show runExecK ⟨fs, w, sp⟩ (.pseudoCd 0 [(ValueD.str p).intoEntity]) ⟨cwd, []⟩ = _
  unfold runExecK
  show (if p ∈ fs then _ else _) = _
  rw [if_pos h]

/-- Witness for `cd_accessible_changes_cwd` at `p = "/tmp"`. -/
theorem cd_accessible_changes_cwd_witness :
    execLine ⟨["/tmp"], fun _ => .exited (some 0), fun _ => none⟩ 9
        (cdTree "/tmp") ⟨none, none, none, 0⟩ ⟨"/", []⟩ =
      (.done (.ok cdSuccessEntity), ⟨"/tmp", []⟩) ∧
      cdSuccessEntity.props = [] :=
  cd_accessible_changes_cwd "/tmp" "/" ["/tmp"] (fun _ => .exited (some 0))
    (fun _ => none) (by simp)

/-- Claim C3 (counterexample): `$cd("/definitely/not/real")` with no such
directory yields an `Execution`-kind diagnostic and leaves the CWD
unchanged, but the diagnostic is attached to node 0 — the id carried by
the `ExecutionConfig` (the root) — while the `PropertyCall` node has id
3. -/
theorem cd_error_not_on_property_call :
    execLine envNone 9 (cdTree "/definitely/not/real")
        ⟨none, none, none, 0⟩ ⟨"/", []⟩ =
      (.done (.error (singleErr 0 .execution "Could not change directory")),
       ⟨"/", []⟩) ∧
      ((cdTree "/definitely/not/real").children.get? 1).map PNode.nid = some 3 ∧
      (0 : Nat) ≠ 3 :=
  ⟨rfl, rfl, by decide⟩

/-- Claim C3 (amended): evaluating `$cd(p)` for an inaccessible `p`
yields a diagnostic of kind `Execution` attached to the `NodeId` carried
by the `ExecutionConfig` — for a top-level line, the root node, not the
`PropertyCall` node — and the process CWD is left unchanged. -/
theorem cd_inaccessible_blames_config_node (p cwd : String) (fs : List String)
    (w : String → WaitOut) (sp : String → Option String) (q : Nat)
    (h : p ∉ fs) :
    execLine ⟨fs, w, sp⟩ 9 (cdTree p) ⟨none, none, none, q⟩ ⟨cwd, []⟩ =
      (.done (.error (singleErr q .execution "Could not change directory")),
       ⟨cwd, []⟩) := by
  unfold execLine
  rw [cdTree_eq,
    executeTree_cdShape ⟨fs, w, sp⟩ (strLitData p) ((ValueD.str p).intoEntity)
      ⟨none, none, none, q⟩ ⟨cwd, []⟩ (inferAs_strLitData 0 false 12 [] p) rfl]
  show runExecK ⟨fs, w, sp⟩ (.pseudoCd q [(ValueD.str p).intoEntity]) ⟨cwd, []⟩ = _
  unfold runExecK
  show (if p ∈ fs then _ else _) = _
  rw [if_neg h]

/-- Witness for `cd_inaccessible_blames_config_node`. -/
theorem cd_inaccessible_blames_config_node_witness :
    execLine ⟨[], fun _ => .exited (some 0), fun _ => none⟩ 9
        (cdTree "/definitely/not/real") ⟨none, none, none, 0⟩ ⟨"/", []⟩ =
      (.done (.error (singleErr 0 .execution "Could not change directory")),
       ⟨"/", []⟩) :=
  cd_inaccessible_blames_config_node "/definitely/not/real" "/" []
    (fun _ => .exited (some 0)) (fun _ => none) 0 (by simp)

/-! ## Process wait semantics (claim C1) -/

/-- Claim C1 (counterexample): a wait that succeeds with exit status 1 is
turned into an `Execution`-kind error by `ProcessExecution::execute`, not
into a result entity carrying `status = 1`. -/
theorem nonzero_exit_is_error :
    processExecutionExecute 7 (.exited (some 1)) =
      .error (singleErr 7 .execution "Execution failed with status") := rfl

/-- Claim C1 (amended): when waiting succeeds, only a zero exit status
produces a result entity (whose `status` property carries 0); any
non-zero or signal status produces an `Execution`-kind error, and a
failure of the wait call itself also produces an `Execution`-kind
error. -/
theorem process_wait_status_amended :
    (∀ nid : Nat, processExecutionExecute nid (.exited (some 0)) =
        .ok (execResultEntity (some 0)))
    ∧ ((execResultEntity (some 0)).getProp "status").map EntityD.numImp =
        some (some 0)
    ∧ (∀ (nid : Nat) (c : Option Int), c ≠ some 0 →
        processExecutionExecute nid (.exited c) =
          .error (singleErr nid .execution "Execution failed with status"))
    ∧ (∀ (nid : Nat) (m : String), processExecutionExecute nid (.failed m) =
        .error (singleErr nid .execution m)) := by
  refine ⟨fun nid => rfl, by decide, fun nid c h => ?_, fun nid m => rfl⟩
  show (if c = some 0 then Except.ok (execResultEntity c)
      else Except.error (singleErr nid .execution "Execution failed with status")) =
    Except.error (singleErr nid .execution "Execution failed with status")
  rw [if_neg h]

/-- Witness for `process_wait_status_amended` at exit status 2. -/
theorem process_wait_status_amended_witness :
    processExecutionExecute 4 (.exited (some 2)) =
      .error (singleErr 4 .execution "Execution failed with status") :=
  process_wait_status_amended.2.2.1 4 (some 2) (by decide)

/-! ## Command atoms and chain nodes

Modelled from the spec: the grammar file being absent, the chain nodes'
children are taken from §4.B (`Delimited := Sequenced (";" Sequenced)*`
etc.) together with §8's round-trip invariant, which requires every
token — separators included — to appear as a leaf of the tree; the
evaluator corroborates this by filtering separator kinds out of the
children (`SemiColon` in `execute_delimited`, `Pipe` in `execute_piped`)
and by indexing past terminal tokens everywhere else (`children()[1]`
after `$`, `skip(1)` past `(`, `children()[2]` after `.`). -/

/-- An argument-less external command atom (`Command` with `CommandName`
and empty `CommandArguments`), ids as the builder assigns them relative
to the `Command` node's id. -/
def cmdPNode (nm : String) (nid : Nat) : PNode :=
  .mk .Command nm false nid
    [.mk .CommandName nm false (nid + 1) [],
     .mk .CommandArguments "" false (nid + 3) []]

/-- Interleave a separator token node between consecutive children, as
the grammar places `;`/`&`/`|` tokens between the chain's operands. -/
def interleaveSep (sep : PNode) : List PNode → List PNode
  | [] => []
  | [x] => [x]
  | x :: y :: rest => x :: sep :: interleaveSep sep (y :: rest)

/-- The parse tree of `false & echo never` (builder ids: `false` command
node 1, `&` 7, `echo never` command node 9). -/
def seqTreeFalseEcho : PNode :=
  build (.mk .Sequenced "false & echo never" false
    [.mk .Command "false" false
       [.mk .CommandName "false" false [],
        .mk .CommandArguments "" false []],
     .mk .Ampersand "&" false [],
     .mk .Command "echo never" false
       [.mk .CommandName "echo" false [],
        .mk .CommandArguments "never" false [.mk .Literal "never" false []]]])

/-- The parse tree of `true & echo hi` (same shape). -/
def seqTreeTrueEcho : PNode :=
  build (.mk .Sequenced "true & echo hi" false
    [.mk .Command "true" false
       [.mk .CommandName "true" false [],
        .mk .CommandArguments "" false []],
     .mk .Ampersand "&" false [],
     .mk .Command "echo hi" false
       [.mk .CommandName "echo" false [],
        .mk .CommandArguments "hi" false [.mk .Literal "hi" false []]]])

/-- An environment where `false` exits 1 and every other command exits
0. -/
def envFalseFails : Env :=
  ⟨[], fun nm => if nm = "false" then .exited (some 1) else .exited (some 0),
   fun _ => none⟩

/-- Claim C4 (code bug): `execute_sequenced` filters `SemiColon` — not
`Ampersand` — out of its children, so the `&` separator token node is
executed as if it were an atom.  When the first child errs the chain
aborts before reaching the separator and the claim's `false & echo
never` scenario does hold (first conjunct: `echo never` is never
spawned); but when the first child succeeds, as in `true & echo hi`, the
evaluator reaches the `Ampersand` node and panics "Expected command or
function" instead of running the last child and returning its result
(second conjunct). -/
theorem sequenced_executes_separator :
    execLine envFalseFails 6 seqTreeFalseEcho ⟨none, none, none, 0⟩ ⟨"/", []⟩ =
      (.done (.error (singleErr 1 .execution "Execution failed with status")),
       ⟨"/", [.spawned "false" ⟨none, none, none, 0⟩, .waited "false"]⟩) ∧
    execLine envFalseFails 6 seqTreeTrueEcho ⟨none, none, none, 0⟩ ⟨"/", []⟩ =
      (.panicked "Expected command or function",
       ⟨"/", [.spawned "true" ⟨none, none, none, 0⟩, .waited "true"]⟩) :=
  ⟨rfl, rfl⟩

/-- The last command of a nonempty chain (dummy on the empty list). -/
def lastCmd (cs : List (String × Nat)) : String × Nat :=
  cs.getLast?.getD ("", 0)

/-- A `;`-delimited chain node over command atoms, separators included as
children. -/
def delimNode (cs : List (String × Nat)) : PNode :=
  .mk .Delimited "" false 0
    (interleaveSep (.mk .SemiColon ";" false 99 [])
      (cs.map (fun c => cmdPNode c.1 c.2)))

/-- A pipeline node over command atoms, separators included as
children. -/
def pipedNode (cs : List (String × Nat)) : PNode :=
  .mk .Piped "" false 0
    (interleaveSep (.mk .Pipe "|" false 98 [])
      (cs.map (fun c => cmdPNode c.1 c.2)))

theorem filter_interleaveSep (p : PNode → Bool) (sep : PNode) :
    ∀ (l : List PNode), p sep = false → (∀ x ∈ l, p x = true) →
      (interleaveSep sep l).filter p = l := by
  intro l
  induction l with
  | nil => intro _ _; rfl
  | cons x rest ih =>
    intro hsep hl
    cases rest with
    | nil => simp [interleaveSep, List.filter_cons, hl x (by simp)]
    | cons y r2 =>
      have hx : p x = true := hl x (by simp)
      have hrest : (interleaveSep sep (y :: r2)).filter p = y :: r2 :=
        ih hsep (fun z hz => hl z (by simp [hz]))
      calc (interleaveSep sep (x :: y :: r2)).filter p
          = (x :: sep :: interleaveSep sep (y :: r2)).filter p := rfl
        _ = x :: (interleaveSep sep (y :: r2)).filter p := by
            simp [List.filter_cons, hx, hsep]
        _ = x :: y :: r2 := by rw [hrest]

/-- Evaluating a command atom at the command-or-function level: infer the
synthetic entity, dispatch its callee, spawn; the pending process
execution is returned. -/
theorem cmdOrFn_stepN (env : Env) (fuel : Nat) (nm : String) (nid : Nat)
    (cfg : Cfg) (st : St) (h : env.spawnErr nm = none) :
    execPh env (fuel + 2) .cmdOrFn (cmdPNode nm nid) cfg st =
      (.done (.execution (.procExec nid nm)), st.push (.spawned nm cfg)) := by
  have happ : applyCallee env (.commandDispatch nm [] nid) [] cfg st =
      (.ok (.procExec nid nm), st.push (.spawned nm cfg)) := by
    unfold applyCallee
    dsimp only
    rw [h]
  calc execPh env (fuel + 2) .cmdOrFn (cmdPNode nm nid) cfg st
      = (match applyCallee env (.commandDispatch nm [] nid) [] cfg st with
         | (.error e2, st2) => (.done (.value (.error e2)), st2)
         | (.ok k, st2) => (.done (.execution k), st2)) := rfl
    _ = (.done (.execution (.procExec nid nm)), st.push (.spawned nm cfg)) := by
        rw [happ]

/-- The same step entered at the `execute_sequenced` level (fuel 4), the
chain-kind checks passing through. -/
theorem seq_step4 (env : Env) (nm : String) (nid : Nat) (cfg : Cfg) (st : St)
    (h : env.spawnErr nm = none) :
    execPh env 4 .seq (cmdPNode nm nid) cfg st =
      (.done (.execution (.procExec nid nm)), st.push (.spawned nm cfg)) := by
  calc execPh env 4 .seq (cmdPNode nm nid) cfg st
      = execPh env 2 .cmdOrFn (cmdPNode nm nid) cfg st := rfl
    _ = _ := cmdOrFn_stepN env 0 nm nid cfg st h

/-- The same step entered directly at the command-or-function level with
fuel 3, as the pipeline's creation loop does. -/
theorem cmdOrFn_step3 (env : Env) (nm : String) (nid : Nat) (cfg : Cfg)
    (st : St) (h : env.spawnErr nm = none) :
    execPh env 3 .cmdOrFn (cmdPNode nm nid) cfg st =
      (.done (.execution (.procExec nid nm)), st.push (.spawned nm cfg)) :=
  cmdOrFn_stepN env 1 nm nid cfg st h

/-- Running a pending process execution waits on it and yields the
process result. -/
theorem runExec_proc (env : Env) (nid : Nat) (nm : String) (st : St) :
    ExecSt.runExec env (.execution (.procExec nid nm)) st =
      (.done (processExecutionExecute nid (env.wait nm)), st.push (.waited nm)) :=
  rfl

/-- The observable events of one non-final `;`-chain child: spawn, wait,
and a report when its result is an error. -/
def delimChildEvents (env : Env) (cfg : Cfg) (c : String × Nat) : List Event :=
  [.spawned c.1 cfg, .waited c.1] ++
    (match processExecutionExecute c.2 (env.wait c.1) with
     | .ok _ => []
     | .error e => [.reported (e.errors.map (fun x => x.1))])

theorem delimLoop_cmds (env : Env) (cfg : Cfg) :
    ∀ (cs : List (String × Nat)) (st : St), cs ≠ [] →
      (∀ x ∈ cs, env.spawnErr x.1 = none) →
      delimLoop (fun c st2 => execPh env 4 .seq c cfg st2)
          (fun es st2 => es.runExec env st2)
          (cs.map (fun c => cmdPNode c.1 c.2)) st =
        (.done (.execution (.procExec (lastCmd cs).2 (lastCmd cs).1)),
         { st with events := st.events ++
             cs.dropLast.flatMap (delimChildEvents env cfg) ++
             [.spawned (lastCmd cs).1 cfg] }) := by
  intro cs
  induction cs with
  | nil => intro st h; exact absurd rfl h
  | cons c rest ih =>
    intro st _ hsp
    have hc : env.spawnErr c.1 = none := hsp c (by simp)
    cases rest with
    | nil =>
      calc delimLoop (fun c2 st2 => execPh env 4 .seq c2 cfg st2)
            (fun es st2 => es.runExec env st2) [cmdPNode c.1 c.2] st
          = execPh env 4 .seq (cmdPNode c.1 c.2) cfg st := rfl
        _ = (.done (.execution (.procExec c.2 c.1)), st.push (.spawned c.1 cfg)) :=
            seq_step4 env c.1 c.2 cfg st hc
        _ = _ := by simp [lastCmd, St.push]
    | cons c2 r2 =>
      have hrest : (∀ x ∈ c2 :: r2, env.spawnErr x.1 = none) :=
        fun x hx => hsp x (by simp [hx])
      have hstep := seq_step4 env c.1 c.2 cfg st hc
      cases hres : processExecutionExecute c.2 (env.wait c.1) with
      | ok v =>
        have h1 : delimLoop (fun c3 st2 => execPh env 4 .seq c3 cfg st2)
              (fun es st2 => es.runExec env st2)
              ((c :: c2 :: r2).map (fun x => cmdPNode x.1 x.2)) st =
            delimLoop (fun c3 st2 => execPh env 4 .seq c3 cfg st2)
              (fun es st2 => es.runExec env st2)
              ((c2 :: r2).map (fun x => cmdPNode x.1 x.2))
              ((st.push (.spawned c.1 cfg)).push (.waited c.1)) := by
          conv_lhs => rw [List.map_cons, List.map_cons, delimLoop]
          rw [hstep]
          dsimp only
          rw [runExec_proc, hres]
          exact rfl
        rw [h1, ih _ (by simp) hrest]
        simp [lastCmd, St.push, delimChildEvents, hres, List.append_assoc]
      | error e =>
        have h1 : delimLoop (fun c3 st2 => execPh env 4 .seq c3 cfg st2)
              (fun es st2 => es.runExec env st2)
              ((c :: c2 :: r2).map (fun x => cmdPNode x.1 x.2)) st =
            delimLoop (fun c3 st2 => execPh env 4 .seq c3 cfg st2)
              (fun es st2 => es.runExec env st2)
              ((c2 :: r2).map (fun x => cmdPNode x.1 x.2))
              (((st.push (.spawned c.1 cfg)).push (.waited c.1)).push
                (.reported (e.errors.map (fun x => x.1)))) := by
          conv_lhs => rw [List.map_cons, List.map_cons, delimLoop]
          rw [hstep]
          dsimp only
          rw [runExec_proc, hres]
          exact rfl
        rw [h1, ih _ (by simp) hrest]
        simp [lastCmd, St.push, delimChildEvents, hres, List.append_assoc]

/-- Claim C5: for a `;`-delimited list of commands, every child is
evaluated in left-to-right order; a non-final child whose execution errs
is reported (a `reported` event naming its blamed nodes) and evaluation
continues; the returned result is the last child's. -/
theorem delimited_reports_and_continues (cs : List (String × Nat)) (env : Env)
    (cwd : String) (ev0 : List Event) (hne : cs ≠ [])
    (hsp : ∀ x ∈ cs, env.spawnErr x.1 = none) :
    execLine env 5 (delimNode cs) ⟨none, none, none, 0⟩ ⟨cwd, ev0⟩ =
      (.done (processExecutionExecute (lastCmd cs).2 (env.wait (lastCmd cs).1)),
       ⟨cwd, ev0 ++
         cs.dropLast.flatMap (delimChildEvents env ⟨none, none, none, 0⟩) ++
         [.spawned (lastCmd cs).1 ⟨none, none, none, 0⟩,
          .waited (lastCmd cs).1]⟩) := by
  have hfil : (delimNode cs).children.filter
      (fun x => x.kind ≠ ASTKind.SemiColon) = cs.map (fun x => cmdPNode x.1 x.2) := by
    apply filter_interleaveSep
    · rfl
    · intro x hx
      obtain ⟨y, hy, rfl⟩ := List.mem_map.mp hx
      rfl
  have hloop := delimLoop_cmds env ⟨none, none, none, 0⟩ cs ⟨cwd, ev0⟩ hne hsp
  calc execLine env 5 (delimNode cs) ⟨none, none, none, 0⟩ ⟨cwd, ev0⟩
      = (match delimLoop (fun c st2 => execPh env 4 .seq c ⟨none, none, none, 0⟩ st2)
            (fun es st2 => es.runExec env st2)
            ((delimNode cs).children.filter (fun x => x.kind ≠ ASTKind.SemiColon))
            ⟨cwd, ev0⟩ with
         | (.panicked m, st2) => (.panicked m, st2)
         | (.done es, st2) => es.runExec env st2) := rfl
    _ = _ := by
        rw [hfil, hloop]
        dsimp only
        rw [runExec_proc]
        simp [St.push, List.append_assoc]

/-- Witness for `delimited_reports_and_continues` on `false ; echo`:
`false` errs and is reported, `echo` still runs and its result is
returned. -/
theorem delimited_reports_and_continues_witness :
    execLine envFalseFails 5 (delimNode [("false", 1), ("echo", 9)])
        ⟨none, none, none, 0⟩ ⟨"/", []⟩ =
      (.done (.ok (execResultEntity (some 0))),
       ⟨"/", [.spawned "false" ⟨none, none, none, 0⟩, .waited "false",
              .reported [1],
              .spawned "echo" ⟨none, none, none, 0⟩, .waited "echo"]⟩) := by
  rw [delimited_reports_and_continues [("false", 1), ("echo", 9)] envFalseFails
    "/" [] (by simp) (fun x hx => rfl)]
  rfl

/-- The creation-phase events of a pipeline, following the spec's wiring
description (§4.F `eval_piped`): for each child `i` but the last, pipe
`i` is created, child `i` is spawned with stdout on pipe `i`'s write
end, and child `i + 1` reads pipe `i`'s read end; the first child's
stdin and the last child's stdout come from the caller; every child's
stderr comes from the caller. -/
def pipedCreateEvents : List (String × Nat) → Nat → FdTag → FdTag → FdTag →
    List Event
  | [], _, _, _, _ => []
  | [x], _, lastRead, fOut, fErr =>
    [.spawned x.1 ⟨some lastRead, some fOut, some fErr, x.2⟩]
  | x :: y :: rest, i, lastRead, fOut, fErr =>
    [.pipeMade i, .spawned x.1 ⟨some lastRead, some (.pipeWr i), some fErr, x.2⟩] ++
      pipedCreateEvents (y :: rest) (i + 1) (.pipeRd i) fOut fErr

/-- Number of pipe-creation events. -/
def countPipes (l : List Event) : Nat :=
  (l.filter (fun e => match e with | .pipeMade _ => true | _ => false)).length

theorem countPipes_pipedCreateEvents :
    ∀ (cs : List (String × Nat)) (i : Nat) (lastRead fOut fErr : FdTag),
      countPipes (pipedCreateEvents cs i lastRead fOut fErr) = cs.length - 1 := by
  intro cs
  induction cs with
  | nil => intro i lr fo fe; rfl
  | cons x rest ih =>
    intro i lr fo fe
    cases rest with
    | nil => rfl
    | cons y r2 =>
      calc countPipes (pipedCreateEvents (x :: y :: r2) i lr fo fe)
          = 1 + countPipes (pipedCreateEvents (y :: r2) (i + 1) (.pipeRd i) fo fe) := by
            simp [pipedCreateEvents, countPipes, List.filter_append]
            omega
        _ = 1 + ((y :: r2).length - 1) := by rw [ih]
        _ = (x :: y :: r2).length - 1 := by simp; omega

theorem pipedLoop_cmds (env : Env) (fOut fErr : FdTag) :
    ∀ (cs : List (String × Nat)) (i : Nat) (lastRead : FdTag) (st : St),
      cs ≠ [] → (∀ x ∈ cs, env.spawnErr x.1 = none) →
      pipedLoop (fun c ccfg st2 => execPh env 3 .cmdOrFn c ccfg st2) fOut fErr
          (cs.map (fun c => cmdPNode c.1 c.2)) i lastRead st =
        (.done (cs.map (fun x => ExecSt.execution (.procExec x.2 x.1))),
         { st with events := st.events ++
             pipedCreateEvents cs i lastRead fOut fErr }) := by
  intro cs
  induction cs with
  | nil => intro i lr st h; exact absurd rfl h
  | cons c rest ih =>
    intro i lr st _ hsp
    have hc : env.spawnErr c.1 = none := hsp c (by simp)
    cases rest with
    | nil =>
      calc pipedLoop (fun c2 ccfg st2 => execPh env 3 .cmdOrFn c2 ccfg st2)
            fOut fErr [cmdPNode c.1 c.2] i lr st
          = (match execPh env 3 .cmdOrFn (cmdPNode c.1 c.2)
                ⟨some lr, some fOut, some fErr, c.2⟩ st with
             | (.panicked m, st2) => (.panicked m, st2)
             | (.done es, st2) => (.done [es], st2)) := rfl
        _ = _ := by
            rw [cmdOrFn_step3 env c.1 c.2 _ st hc]
            simp [pipedCreateEvents, St.push]
    | cons c2 r2 =>
      have hrest : (∀ x ∈ c2 :: r2, env.spawnErr x.1 = none) :=
        fun x hx => hsp x (by simp [hx])
      have h1 : pipedLoop (fun c3 ccfg st2 => execPh env 3 .cmdOrFn c3 ccfg st2)
            fOut fErr ((c :: c2 :: r2).map (fun x => cmdPNode x.1 x.2)) i lr st =
          (match pipedLoop (fun c3 ccfg st2 => execPh env 3 .cmdOrFn c3 ccfg st2)
              fOut fErr ((c2 :: r2).map (fun x => cmdPNode x.1 x.2)) (i + 1)
              (.pipeRd i)
              ((st.push (.pipeMade i)).push
                (.spawned c.1 ⟨some lr, some (.pipeWr i), some fErr, c.2⟩)) with
           | (.panicked m, st3) => (.panicked m, st3)
           | (.done l, st3) => (.done (ExecSt.execution (.procExec c.2 c.1) :: l), st3)) := by
        conv_lhs => rw [List.map_cons, List.map_cons, pipedLoop]
        rw [cmdOrFn_step3 env c.1 c.2 _ (st.push (.pipeMade i)) hc]
        exact rfl
      rw [h1, ih (i + 1) (.pipeRd i) _ (by simp) hrest]
      simp [pipedCreateEvents, St.push, List.append_assoc]

theorem fifoRun_procs (env : Env) :
    ∀ (cs : List (String × Nat)) (acc : Option (Except EEE EntityD)) (st : St),
      fifoRun (fun es st2 => es.runExec env st2)
          (cs.map (fun x => ExecSt.execution (.procExec x.2 x.1))) acc st =
        (.done (match cs with
           | [] => acc
           | c :: r =>
             some (processExecutionExecute (lastCmd (c :: r)).2
               (env.wait (lastCmd (c :: r)).1))),
         { st with events := st.events ++ cs.map (fun x => Event.waited x.1) }) := by
  intro cs
  induction cs with
  | nil => intro acc st; simp [fifoRun]
  | cons c rest ih =>
    intro acc st
    have h1 : fifoRun (fun es st2 => es.runExec env st2)
          ((c :: rest).map (fun x => ExecSt.execution (.procExec x.2 x.1))) acc st =
        fifoRun (fun es st2 => es.runExec env st2)
          (rest.map (fun x => ExecSt.execution (.procExec x.2 x.1)))
          (some (processExecutionExecute c.2 (env.wait c.1)))
          (st.push (.waited c.1)) := by
      conv_lhs => rw [List.map_cons, fifoRun]
      rw [runExec_proc]
    rw [h1, ih _ _]
    cases rest with
    | nil => simp [lastCmd, St.push]
    | cons c2 r2 => simp [lastCmd, St.push, List.append_assoc]

/-- Claim C6: evaluating a pipeline of N command atoms with a fully
specified caller config creates exactly N−1 pipes; child `i`'s stdout is
pipe `i`'s write end and child `i+1`'s stdin is pipe `i`'s read end; the
leftmost child's stdin and the rightmost child's stdout come from the
caller's config and every child's stderr does; all N executions are
created (processes spawned) before any is executed, and they are then
executed (waited on) in left-to-right FIFO order — the event trace is
the creation phase followed by the waits in child order. -/
theorem piped_wiring_fifo (cs : List (String × Nat)) (env : Env)
    (a b c : FdTag) (pt : Nat) (cwd : String) (ev0 : List Event)
    (hne : cs ≠ []) (hsp : ∀ x ∈ cs, env.spawnErr x.1 = none) :
    execLine env 6 (pipedNode cs) ⟨some a, some b, some c, pt⟩ ⟨cwd, ev0⟩ =
      (.done (processExecutionExecute (lastCmd cs).2 (env.wait (lastCmd cs).1)),
       ⟨cwd, ev0 ++ pipedCreateEvents cs 0 a b c ++
         cs.map (fun x => Event.waited x.1)⟩) ∧
    countPipes (pipedCreateEvents cs 0 a b c) = cs.length - 1 := by
  refine ⟨?_, countPipes_pipedCreateEvents cs 0 a b c⟩
  obtain ⟨c0, r0, rfl⟩ : ∃ c0 r0, cs = c0 :: r0 := by
    cases cs with
    | nil => exact absurd rfl hne
    | cons c0 r0 => exact ⟨c0, r0, rfl⟩
  have hfil : (pipedNode (c0 :: r0)).children.filter
      (fun x => x.kind ≠ ASTKind.Pipe) =
      (c0 :: r0).map (fun x => cmdPNode x.1 x.2) := by
    apply filter_interleaveSep
    · rfl
    · intro x hx
      obtain ⟨y, hy, rfl⟩ := List.mem_map.mp hx
      rfl
  have hloop := pipedLoop_cmds env b c (c0 :: r0) 0 a ⟨cwd, ev0⟩ (by simp) hsp
  calc execLine env 6 (pipedNode (c0 :: r0)) ⟨some a, some b, some c, pt⟩ ⟨cwd, ev0⟩
      = (match
          ((match pipedLoop (fun c2 ccfg st2 => execPh env 3 .cmdOrFn c2 ccfg st2)
              b c
              ((pipedNode (c0 :: r0)).children.filter
                (fun x => x.kind ≠ ASTKind.Pipe)) 0 a ⟨cwd, ev0⟩ with
           | (POr.panicked m, st2) => (POr.panicked m, st2)
           | (POr.done execs, st2) =>
             match fifoRun (fun es st3 => es.runExec env st3) execs none st2 with
             | (POr.panicked m, st3) => (POr.panicked m, st3)
             | (POr.done none, st3) =>
               (POr.panicked "called unwrap on a None value", st3)
             | (POr.done (some r), st3) =>
               (POr.done (ExecSt.value r), st3)) : POr ExecSt × St) with
         | (POr.panicked m, st2) => (POr.panicked m, st2)
         | (POr.done es, st2) => es.runExec env st2) := rfl
    _ = _ := by
        rw [hfil, hloop]
        dsimp only
        rw [fifoRun_procs env (c0 :: r0) none]
        simp [ExecSt.runExec, List.append_assoc]

/-- Witness for `piped_wiring_fifo` on the two-stage pipeline
`echo | grep`: one pipe, `echo`'s stdout on its write end, `grep`'s
stdin on its read end, caller stdin/stdout at the ends, both spawned
before either is waited on, waits left to right. -/
theorem piped_wiring_fifo_witness :
    execLine envFalseFails 6 (pipedNode [("echo", 1), ("grep", 9)])
        ⟨some .stdinFd, some .stdoutFd, some .stderrFd, 0⟩ ⟨"/", []⟩ =
      (.done (.ok (execResultEntity (some 0))),
       ⟨"/", [.pipeMade 0,
              .spawned "echo" ⟨some .stdinFd, some (.pipeWr 0), some .stderrFd, 1⟩,
              .spawned "grep" ⟨some (.pipeRd 0), some .stdoutFd, some .stderrFd, 9⟩,
              .waited "echo", .waited "grep"]⟩) ∧
      countPipes (pipedCreateEvents [("echo", 1), ("grep", 9)] 0
        .stdinFd .stdoutFd .stderrFd) = 1 := by
  have h := piped_wiring_fifo [("echo", 1), ("grep", 9)] envFalseFails
    .stdinFd .stdoutFd .stderrFd 0 "/" [] (by simp) (fun x hx => rfl)
  exact ⟨by rw [h.1]; rfl, h.2⟩

/-! ## The REPL gate on syntax errors (claim C10) -/

/-- Claim C10: a committed line whose parse tree contains an `Error`
node is not evaluated at all — the REPL prints "Syntax error" and moves
on, so nothing is spawned and no side effect occurs. -/
theorem repl_skips_error_trees (env : Env) (fuel : Nat) (cwd : String)
    (n : PNode) (h : hasErrNode fuel n = true) :
    replStep env fuel cwd n = .syntaxError := by
  unfold replStep
  rw [if_pos h]

/-- Witness for `repl_skips_error_trees`: the error-recovered tree of the
unclosed line `$cd(` (an `Error` leaf standing for the missing
argument list) is skipped. -/
theorem repl_skips_error_trees_witness :
    replStep envTmp 9 "/"
      (build (.mk .Function "$cd(" false
        [.mk .Dollar "$" false [],
         .mk .PropertyCall "cd(" false
           [.mk .PropertyInsn "cd" false [.mk .PropertyName "cd" false []],
            .mk .ParenthesizedArgumentsList "(" true
              [.mk .OpenParen "(" false []]]])) = .syntaxError :=
  repl_skips_error_trees envTmp 9 "/" _ (by rfl)

end Fosh
